import Mathlib

/-!
# UmaRacingWeb — verification of the race-presentation layer

Shallow embedding of the parts of the UmaRacingWeb repository that the
verified properties are about.  JavaScript numbers are modelled as exact
rationals (`ℚ`); JavaScript objects become Lean structures; fallible
operations return `Option`.  Functions are translated from the source files
under `frontend/src/components` and the archived components; parts of the
backend engine that are not present in the repository snapshot are modelled
from the specification and are marked `Modelled from the spec:` in their
doc comments.
-/

namespace UmaRacing

/-- A participant entry of a frame's `positions` array, as consumed by the
frontend components (`FinalResults.js`, `LiveStandings.js`, `RaceTrack.js`).
All JS numbers are modelled as `ℚ`; `finish_time` is absent (`none`) until
the horse finishes. -/
structure Horse where
  name : String
  distance : ℚ
  position : ℚ
  gate : ℚ
  finished : Bool
  finish_time : Option ℚ
  color : String
deriving DecidableEq, Repr

/-- JavaScript truthiness of a possibly-missing number: `undefined`/`null`
and `0` are falsy (`!horse.finish_time`). -/
def jsTruthyNum : Option ℚ → Bool
  | none => false
  | some q => q ≠ 0

/-- Result of the margin computation.  Each constructor stands for the
string literal returned by the corresponding branch of the source
(`'Dead Heat'`, `'Nose'`, …); the final branch carries the computed
`lengths` value that the source formats as a string. -/
inductive Margin where
  | blank                  -- ''
  | deadHeat               -- 'Dead Heat'
  | nose                   -- 'Nose'
  | shortHead              -- 'Short Head'
  | head                   -- 'Head'
  | neck                   -- 'Neck'
  | half                   -- '1/2'
  | threeQuarters          -- '3/4'
  | one                    -- '1'
  | oneQuarter             -- '1 1/4'
  | oneHalf                -- '1 1/2'
  | oneThreeQuarters       -- '1 3/4'
  | two                    -- '2'
  | twoHalf                -- '2 1/2'
  | three                  -- '3'
  | lengths (l : ℚ)        -- l.toFixed(1) + 'L'
deriving DecidableEq, Repr

/-- Result of the in-race gap margin of the archived `LiveStandings.js`
(the branch taken while either horse has no finish time). -/
inductive GapMargin where
  | gapDeadHeat            -- 'Dead heat'
  | gapNose                -- 'Nose'
  | gapShortHead           -- 'Short head'
  | gapHead                -- 'Head'
  | gapNeck                -- 'Neck'
  | gapLengths (l : ℚ)     -- (gap / 2.5).toFixed(1) + 'L'
deriving DecidableEq, Repr

/-- The non-dead-heat buckets of the margin chain (the branches from
`lengths < 0.1` on). -/
def marginBuckets (lengths : ℚ) : Margin :=
  if lengths < 0.1 then Margin.nose
  else if lengths < 0.15 then Margin.shortHead
  else if lengths < 0.25 then Margin.head
  else if lengths < 0.4 then Margin.neck
  else if lengths < 0.6 then Margin.half
  else if lengths < 0.85 then Margin.threeQuarters
  else if lengths < 1.15 then Margin.one
  else if lengths < 1.45 then Margin.oneQuarter
  else if lengths < 1.75 then Margin.oneHalf
  else if lengths < 2.05 then Margin.oneThreeQuarters
  else if lengths < 2.5 then Margin.two
  else if lengths < 3.0 then Margin.twoHalf
  else if lengths < 3.5 then Margin.three
  else Margin.lengths lengths

/-- The finished-pair body shared verbatim by
`FinalResults.getMarginFromFinishTime` and the archived
`LiveStandings.getMarginFromFinishTime`: converts the finish-time gap to
horse lengths (average speed 17 m/s, horse length 2.4 m) and buckets it. -/
def finishedMargin (timeDiff : ℚ) : Margin :=
  if timeDiff < 0.001 then Margin.deadHeat
  else
    let lengths := max 0 (timeDiff * 17.0 / 2.4)
    if lengths < 0.05 then Margin.deadHeat
    else marginBuckets lengths

namespace FinalResults

/-- `getMarginFromFinishTime(currentHorse, previousHorse)` of
`frontend/src/components/FinalResults.js` (lines 36–61): returns `''` when
either finish time is falsy, otherwise buckets the finish-time difference
into a racing margin. -/
def getMarginFromFinishTime (currentHorse previousHorse : Horse) : Margin :=
  if ¬ jsTruthyNum previousHorse.finish_time ∨ ¬ jsTruthyNum currentHorse.finish_time then
    Margin.blank
  else
    let timeDiff :=
      (currentHorse.finish_time.getD 0) - (previousHorse.finish_time.getD 0)
    finishedMargin timeDiff

end FinalResults

namespace LiveStandingsArchived

/-- In-race gap bucketing of the archived
`archive/initial_commit/frontend/src/components/LiveStandings.js`. -/
def gapMargin (gap : ℚ) : GapMargin :=
  if gap < 0.1 then GapMargin.gapDeadHeat
  else if gap < 0.5 then GapMargin.gapNose
  else if gap < 1.0 then GapMargin.gapShortHead
  else if gap < 2.0 then GapMargin.gapHead
  else if gap < 3.0 then GapMargin.gapNeck
  else GapMargin.gapLengths (gap / 2.5)

/-- `getMarginFromFinishTime(currentHorse, previousHorse)` of the archived
`LiveStandings.js` (lines 21–56): while either horse lacks a finish time the
distance gap is bucketed; once both have finished the finish-time difference
is bucketed exactly as in `FinalResults.js`. -/
def getMarginFromFinishTime (currentHorse previousHorse : Horse) :
    Margin ⊕ GapMargin :=
  if ¬ jsTruthyNum previousHorse.finish_time ∨ ¬ jsTruthyNum currentHorse.finish_time then
    Sum.inr (gapMargin (previousHorse.distance - currentHorse.distance))
  else
    let timeDiff :=
      (currentHorse.finish_time.getD 0) - (previousHorse.finish_time.getD 0)
    Sum.inl (finishedMargin timeDiff)

end LiveStandingsArchived

/-! ## Frames and the live WebSocket consumer (`RaceContainer.js`) -/

/-- A frame as received over the WebSocket (`message.data`): the engine's
emitted snapshot for one tick. -/
structure Frame where
  sim_time : ℚ
  positions : List Horse
  race_finished : Bool
deriving DecidableEq, Repr

/-- A frame as appended to the replay buffer: the received frame spread
into a new object with one extra field, `timestamp: Date.now()`
(`RaceContainer.js` line 89). -/
structure StoredFrame extends Frame where
  timestamp : ℚ
deriving DecidableEq, Repr

/-- `{ ...message.data, timestamp: Date.now() }` — the object stored in the
replay buffer for a received frame. -/
def captureFrame (f : Frame) (now : ℚ) : StoredFrame :=
  { f with timestamp := now }

/-- The `raceState` values of `RaceContainer.js`
(`'idle' | 'running' | 'finished' | 'result' | 'replay'`). -/
inductive RState where
  | idle | running | finished | result | replay
deriving DecidableEq, Repr

/-- A parsed WebSocket message: `message.type` and `message.data` (absent or
non-frame data modelled as `none`, matching the `message.data` truthiness
check). -/
structure WsMessage where
  type : String
  data : Option Frame
deriving Repr

/-- The component state touched by the live-race handlers of
`RaceContainer.js`. -/
structure LiveUi where
  raceState : RState
  raceData : Option Frame
  raceFrames : List StoredFrame
  wsOpen : Bool
deriving Repr

/-- The WebSocket `onmessage` handler of `RaceContainer.js` (lines 77–104):
on a `'frame'` message with truthy data it stores the frame as `raceData`,
appends it (with a wall-clock `timestamp`) to the replay buffer, and enters
the `'finished'` state exactly when the frame's `race_finished` flag is
true.  `now` is the value of `Date.now()` at receipt. -/
def onmessage (s : LiveUi) (m : WsMessage) (now : ℚ) : LiveUi :=
  if m.type = "frame" then
    match m.data with
    | some f =>
      let s1 := { s with
        raceData := some f
        raceFrames := s.raceFrames ++ [captureFrame f now] }
      if f.race_finished then { s1 with raceState := RState.finished } else s1
    | none => s
  else s

/-- The `stopRace` handler of `RaceContainer.js` (lines 56–64), success
path: POSTs `/api/race/stop`, sets `raceState` to `'idle'` and closes the
WebSocket. -/
def stopRace (s : LiveUi) : LiveUi :=
  { s with raceState := RState.idle, wsOpen := false }

/-! ## Speed control (`RaceContainer.js` lines 276–292) -/

/-- The values offered by the speed `<select>`: options `1`, `2`, `5`, `10`;
the `onChange` handler issues a set-speed request carrying
`parseFloat(e.target.value)`, i.e. exactly one of these numbers. -/
def speedOptions : List ℚ := [1, 2, 5, 10]

/-- Modelled from the spec: the backend `SetSpeed` operation is not part of
the repository snapshot (only its frontend caller is).  Per the spec,
`SetSpeed(handle, multiplier)` accepts `multiplier ∈ {1, 2, 5, 10}` and
rejects every other value. -/
def setSpeed (m : ℚ) : Except String Unit :=
  if m = 1 ∨ m = 2 ∨ m = 5 ∨ m = 10 then Except.ok ()
  else Except.error "invalid speed multiplier"

/-! ## Engine state machine (modelled from the spec)

The race simulation engine itself (the backend behind
`http://localhost:5000`) is not part of the repository snapshot; the
definitions of this section are modelled from the specification's words. -/

/-- Modelled from the spec: the engine's finite state value
(`NotStarted, Running, Finished`). -/
inductive SimState where
  | notStarted | running | finished
deriving DecidableEq, Repr

/-- Modelled from the spec: the terminal flags of a participant's state
(`finished flag`, `DNF flag`). -/
structure Participant where
  finished : Bool
  dnf : Bool
deriving DecidableEq, Repr

/-- Modelled from the spec: a participant is terminal when it has finished
or DNFed; natural completion means every participant is terminal. -/
def allTerminal (ps : List Participant) : Bool :=
  ps.all fun p => p.finished || p.dnf

/-- Modelled from the spec: the engine-side frame — `sim_time`, the ordered
snapshot of participant states, and the `race_finished` flag. -/
structure EFrame where
  sim_time : ℚ
  snapshot : List Participant
  race_finished : Bool
deriving DecidableEq, Repr

/-- Modelled from the spec: the fixed simulation step, `dt = 0.05`
simulated seconds per tick. -/
def dt : ℚ := 0.05

/-- Modelled from the spec: the simulation loop's owned state. -/
structure Sim where
  state : SimState
  participants : List Participant
  sim_time : ℚ
deriving Repr

/-- Modelled from the spec: one tick of the simulation loop.  While
`Running` it applies the per-tick update `upd` to the participants,
advances `sim_time` by `dt`, and emits a frame; when every participant is
terminal it transitions `Running → Finished` and the emitted frame is the
terminal one with `race_finished = true`.  Outside `Running` no frame is
emitted. -/
def loopTick (upd : List Participant → List Participant) (s : Sim) :
    Sim × Option EFrame :=
  if s.state = SimState.running then
    let ps := upd s.participants
    let t := s.sim_time + dt
    if allTerminal ps then
      ({ state := SimState.finished, participants := ps, sim_time := t },
       some { sim_time := t, snapshot := ps, race_finished := true })
    else
      ({ state := SimState.running, participants := ps, sim_time := t },
       some { sim_time := t, snapshot := ps, race_finished := false })
  else (s, none)

/-- Modelled from the spec: `Stop(handle)` aborts a running race
(`Running → NotStarted`-equivalent) and is idempotent if the race is
already stopped or finished. -/
def stop : SimState → SimState
  | SimState.running => SimState.notStarted
  | s => s

/-- Modelled from the spec: `Stop` applied to the loop's owned state. -/
def applyStop (s : Sim) : Sim :=
  { s with state := stop s.state }

/-- Modelled from the spec: the fan-out backpressure semantics — a
subscriber that falls behind may miss intermediate frames (those the
`keep` predicate rejects, drop-intermediate) but always receives the
terminal frame (keep-terminal). -/
def deliver (frames : List EFrame) (keep : EFrame → Bool) : List EFrame :=
  frames.filter fun f => keep f || f.race_finished

/-! ## Photo-finish tiebreak (modelled from the spec) -/

/-- Modelled from the spec: a participant's values at the moment of
crossing the finish line, used by the photo-finish resolver. -/
structure Crossing where
  finish_time : ℚ
  normalized_velocity : ℚ
  normalized_acceleration : ℚ
  normalized_power : ℚ
deriving DecidableEq, Repr

/-- Modelled from the spec: two finish times are a dead heat only if their
difference is below a small epsilon (reference: 0.001 s). -/
def deadHeatEpsilon : ℚ := 0.001

/-- Modelled from the spec: the weighted tiebreak score
`0.6 × normalized_velocity + 0.2 × normalized_acceleration +
0.2 × normalized_power` evaluated at the moment of crossing. -/
def tiebreakScore (c : Crossing) : ℚ :=
  0.6 * c.normalized_velocity + 0.2 * c.normalized_acceleration
    + 0.2 * c.normalized_power

/-- Relative order of a resolved pair of finishers. -/
inductive PairOrder where
  | firstAhead | secondAhead | deadHeat
deriving DecidableEq, Repr

/-- Modelled from the spec: resolution of a pair of finishers.  Within
epsilon the weighted tiebreak score decides (higher score placed ahead;
identical scores remain a declared dead heat); otherwise the earlier
finish time wins. -/
def resolvePhotoFinish (a b : Crossing) : PairOrder :=
  if |a.finish_time - b.finish_time| < deadHeatEpsilon then
    if tiebreakScore b < tiebreakScore a then PairOrder.firstAhead
    else if tiebreakScore a < tiebreakScore b then PairOrder.secondAhead
    else PairOrder.deadHeat
  else if a.finish_time < b.finish_time then PairOrder.firstAhead
  else PairOrder.secondAhead

/-! ## Stamina model (modelled from the spec) -/

/-- Modelled from the spec: per-tick stamina depletion — proportional to
current velocity squared and a phase-specific multiplier (already reduced
by Wit); stamina is floored at zero when it runs out. -/
def staminaTick (mult v s : ℚ) : ℚ :=
  max 0 (s - mult * v ^ 2)

/-- Modelled from the spec: stamina remaining after folding the per-tick
depletion over a list of `(multiplier, velocity)` tick inputs. -/
def staminaAfter (s0 : ℚ) (ticks : List (ℚ × ℚ)) : ℚ :=
  ticks.foldl (fun s mv => staminaTick mv.1 mv.2 s) s0

/-! ## Per-tick ranking order (`RaceTrack` component, `src/unnamed/part_002`) -/

namespace RaceTrack

/-- `[...raceData.positions].sort((a, b) => b.distance - a.distance)`
(`src/unnamed/part_002`, lines 239–240).  JavaScript `Array.prototype.sort`
is stable, so the comparator `b.distance - a.distance` is embedded as a
stable sort with respect to the non-strict relation
`b.distance ≤ a.distance` (a placed before b exactly when the comparator
allows it, ties keeping the incoming order). -/
def sortedHorses (positions : List Horse) : List Horse :=
  List.insertionSort (fun a b => b.distance ≤ a.distance) positions

end RaceTrack

/-- The ordering asserted by the specification for the per-tick ranking:
distance covered descending, ties broken by gate number ascending.  Stated
from the spec's words for comparison with the source's `sortedHorses`. -/
def claimedRankOrder (a b : Horse) : Prop :=
  b.distance < a.distance ∨ (a.distance = b.distance ∧ a.gate < b.gate)

instance : DecidableRel claimedRankOrder := fun a b => by
  unfold claimedRankOrder; infer_instance

/-! ## Replay artifact (`RaceContainer.js` lines 169–219) -/

/-- A JSON value, as produced by `JSON.stringify`/`JSON.parse`. -/
inductive Json where
  | null : Json
  | bool (b : Bool) : Json
  | num (q : ℚ) : Json
  | str (s : String) : Json
  | arr (elems : List Json) : Json
  | obj (fields : List (String × Json)) : Json

/-- JavaScript property access `j.k` on a parsed value: a lookup on an
object, `undefined` (`none`) otherwise. -/
def Json.getField : Json → String → Option Json
  | Json.obj fs, k => fs.lookup k
  | _, _ => none

/-- JavaScript falsiness of a JSON value (`null`, `false`, `0`, `''`). -/
def Json.jsFalsy : Json → Bool
  | Json.null => true
  | Json.bool b => !b
  | Json.num q => q = 0
  | Json.str s => s = ""
  | _ => false

/-- Serialization of an optional finish time (`null` when absent). -/
def encodeOptNum : Option ℚ → Json
  | none => Json.null
  | some q => Json.num q

def decodeOptNum : Json → Option (Option ℚ)
  | Json.null => some none
  | Json.num q => some (some q)
  | _ => none

def asNum : Json → Option ℚ
  | Json.num q => some q
  | _ => none

def asStr : Json → Option String
  | Json.str s => some s
  | _ => none

def asBool : Json → Option Bool
  | Json.bool b => some b
  | _ => none

def asArr : Json → Option (List Json)
  | Json.arr xs => some xs
  | _ => none

/-- Serialization of a `positions` entry. -/
def Horse.toJson (h : Horse) : Json :=
  Json.obj [("name", Json.str h.name), ("distance", Json.num h.distance),
    ("position", Json.num h.position), ("gate", Json.num h.gate),
    ("finished", Json.bool h.finished),
    ("finish_time", encodeOptNum h.finish_time), ("color", Json.str h.color)]

/-- Reading a `positions` entry back from parsed JSON (the field accesses
the frontend performs on it). -/
def Horse.fromJson (j : Json) : Option Horse := do
  let name ← (j.getField "name").bind asStr
  let distance ← (j.getField "distance").bind asNum
  let position ← (j.getField "position").bind asNum
  let gate ← (j.getField "gate").bind asNum
  let finished ← (j.getField "finished").bind asBool
  let finish_time ← (j.getField "finish_time").bind decodeOptNum
  let color ← (j.getField "color").bind asStr
  pure { name := name, distance := distance, position := position,
         gate := gate, finished := finished, finish_time := finish_time,
         color := color }

/-- Serialization of a stored replay frame. -/
def StoredFrame.toJson (f : StoredFrame) : Json :=
  Json.obj [("sim_time", Json.num f.sim_time),
    ("positions", Json.arr (f.positions.map Horse.toJson)),
    ("race_finished", Json.bool f.race_finished),
    ("timestamp", Json.num f.timestamp)]

/-- Element-wise reading of a parsed JSON array (failing if any element
fails), as the frontend's per-frame field accesses do. -/
def optionMapList {α β : Type} (f : α → Option β) : List α → Option (List β)
  | [] => some []
  | x :: xs => do
    let y ← f x
    let ys ← optionMapList f xs
    pure (y :: ys)

/-- Reading a stored replay frame back from parsed JSON. -/
def StoredFrame.fromJson (j : Json) : Option StoredFrame := do
  let sim_time ← (j.getField "sim_time").bind asNum
  let posJson ← (j.getField "positions").bind asArr
  let positions ← optionMapList Horse.fromJson posJson
  let race_finished ← (j.getField "race_finished").bind asBool
  let timestamp ← (j.getField "timestamp").bind asNum
  pure { sim_time := sim_time, positions := positions,
         race_finished := race_finished, timestamp := timestamp }

/-- `configData?.race?.name || 'Unknown Race'` — the race name written into
the artifact. -/
def raceNameOf (configData : Option Json) : Json :=
  match (configData.bind fun c => c.getField "race").bind
      (fun r => r.getField "name") with
  | some v => if v.jsFalsy then Json.str "Unknown Race" else v
  | none => Json.str "Unknown Race"

/-- `saveReplay` of `RaceContainer.js` (lines 170–186): the serialized
`.umareplay` artifact — an object holding exactly the race configuration,
the captured frame sequence, an ISO timestamp, and the race name. -/
def saveReplay (configData : Option Json) (raceFrames : List StoredFrame)
    (nowIso : String) : Json :=
  Json.obj [("config", configData.getD Json.null),
    ("frames", Json.arr (raceFrames.map StoredFrame.toJson)),
    ("timestamp", Json.str nowIso),
    ("raceName", raceNameOf configData)]

/-- The component state set by `loadReplay`. -/
structure ReplayUi where
  replayData : Json
  configData : Option Json
  raceFrames : List StoredFrame
  replayFrameIndex : Nat
  raceState : RState
  raceData : Option StoredFrame

/-- `loadReplay` of `RaceContainer.js` (lines 189–206): parses the replay
file and installs its `config` and `frames` into the component state,
resetting the playback index to 0, entering the `'replay'` state, and
showing the first stored frame.  Reading the frames back through
`StoredFrame.fromJson` models the field accesses playback performs on the
parsed objects. -/
def loadReplay (fileJson : Json) : Option ReplayUi := do
  let framesJson ← (fileJson.getField "frames").bind asArr
  let frames ← optionMapList StoredFrame.fromJson framesJson
  pure { replayData := fileJson,
         configData := fileJson.getField "config",
         raceFrames := frames,
         replayFrameIndex := 0,
         raceState := RState.replay,
         raceData := frames[0]? }

/-- The playback interval of the replay effect (`RaceContainer.js` line
217): one frame advance per 50 ms (≈20 fps), a fixed playback rate. -/
def playbackIntervalMs : Nat := 50

/-- One firing of the replay playback interval (`RaceContainer.js` lines
209–219): `prev >= raceFrames.length - 1` keeps the index, otherwise it
advances by one (and the frame at the new index is displayed). -/
def replayStep (len prev : Nat) : Nat :=
  if len - 1 ≤ prev then prev else prev + 1

/-- The playback index after `k` firings of the interval, starting from
the index 0 installed by `loadReplay`. -/
def replayIndexAfter (len : Nat) : Nat → Nat
  | 0 => 0
  | k + 1 => replayStep len (replayIndexAfter len k)

/-- The frame displayed (`raceData`) after `k` firings of the playback
interval: playback only indexes the stored frame list, never the
simulation. -/
def replayDisplayed (frames : List StoredFrame) (k : Nat) :
    Option StoredFrame :=
  frames[replayIndexAfter frames.length k]?

/-! ## Concrete example data used by counterexamples and witnesses -/

/-- A finished horse with finish time 100 s. -/
def exWinner : Horse :=
  { name := "Winner", distance := 2000, position := 1, gate := 1,
    finished := true, finish_time := some 100, color := "red" }

/-- A finished horse crossing 0.005 s after `exWinner` — a gap at or above
the 0.001 s epsilon. -/
def exRunnerUp : Horse :=
  { name := "RunnerUp", distance := 2000, position := 2, gate := 2,
    finished := true, finish_time := some (100 + 5 / 1000), color := "blue" }

/-- A mid-race horse at 1000 m wearing gate 2. -/
def exTieGate2 : Horse :=
  { name := "TieGate2", distance := 1000, position := 1, gate := 2,
    finished := false, finish_time := none, color := "red" }

/-- A mid-race horse also at 1000 m, wearing gate 1, listed after
`exTieGate2` in the frame's `positions` array. -/
def exTieGate1 : Horse :=
  { name := "TieGate1", distance := 1000, position := 2, gate := 1,
    finished := false, finish_time := none, color := "blue" }

/-- A one-tick frame used by witnesses. -/
def exFrame : Frame :=
  { sim_time := 1, positions := [exTieGate2, exTieGate1], race_finished := false }

/-- A stored frame used by witnesses. -/
def exStoredFrame : StoredFrame := captureFrame exFrame 777

/-- A WebSocket frame message used by witnesses. -/
def exMsg : WsMessage := { type := "frame", data := some exFrame }

/-- A live component state used by witnesses. -/
def exUi : LiveUi :=
  { raceState := RState.running, raceData := none, raceFrames := [],
    wsOpen := true }

/-- A running simulation whose single participant has finished. -/
def exSim : Sim :=
  { state := SimState.running,
    participants := [{ finished := true, dnf := false }], sim_time := 3 }

/-- A crossing snapshot used by witnesses (score 0.74). -/
def exCrossA : Crossing :=
  { finish_time := 100, normalized_velocity := 0.9,
    normalized_acceleration := 0.5, normalized_power := 0.5 }

/-- A crossing snapshot 0.0004 s later with the lower score 0.68. -/
def exCrossB : Crossing :=
  { finish_time := 100 + 4 / 10000, normalized_velocity := 0.8,
    normalized_acceleration := 0.5, normalized_power := 0.5 }

/-- Tick inputs (multiplier, velocity) used by the stamina witness. -/
def exTicks : List (ℚ × ℚ) := [(1 / 100, 10), (0, 5), (2 / 100, 20)]

instance : IsTotal Horse (fun a b => b.distance ≤ a.distance) :=
  ⟨fun a b => le_total b.distance a.distance⟩

instance : IsTrans Horse (fun a b => b.distance ≤ a.distance) :=
  ⟨fun _ _ _ hab hbc => le_trans hbc hab⟩

/-! # Theorems -/

/-- An if-then-else whose branches both avoid `deadHeat` avoids it. -/
theorem ite_ne_deadHeat {c : Prop} [Decidable c] {a b : Margin}
    (ha : a ≠ Margin.deadHeat) (hb : b ≠ Margin.deadHeat) :
    (if c then a else b) ≠ Margin.deadHeat := by
  split
  · exact ha
  · exact hb

/-- None of the length buckets from `Nose` on is a dead heat. -/
theorem marginBuckets_ne_deadHeat (lengths : ℚ) :
    marginBuckets lengths ≠ Margin.deadHeat := by
  unfold marginBuckets
  repeat' (apply ite_ne_deadHeat)
  all_goals simp

/-- The finished-pair margin is Dead Heat exactly below a time gap of
3/425 s (the image of 0.05 lengths under the 17 m/s / 2.4 m conversion);
the source's `timeDiff < 0.001` branch is strictly inside this region. -/
theorem finishedMargin_deadHeat_iff (td : ℚ) :
    finishedMargin td = Margin.deadHeat ↔ td < 3 / 425 := by
  unfold finishedMargin
  by_cases h1 : td < 0.001
  · rw [if_pos h1]
    refine iff_of_true rfl ?_
    norm_num at h1 ⊢
    linarith
  · rw [if_neg h1]
    by_cases h2 : max 0 (td * 17.0 / 2.4) < 0.05
    · rw [if_pos h2]
      refine iff_of_true rfl ?_
      have hx : td * 17.0 / 2.4 < 0.05 := lt_of_le_of_lt (le_max_right 0 _) h2
      norm_num at hx ⊢
      linarith
    · rw [if_neg h2]
      have h3 : ¬ td < 3 / 425 := by
        have hx : (0.05 : ℚ) ≤ max 0 (td * 17.0 / 2.4) := le_of_not_lt h2
        rcases le_max_iff.mp hx with h | h
        · norm_num at h
        · intro hlt
          norm_num at h hlt
          linarith
      exact iff_of_false (marginBuckets_ne_deadHeat _) h3

/-- C1 (amended): for consecutively ranked finished participants with
nonzero recorded finish times, the margin computation reports Dead Heat
if and only if the difference of their finish times is strictly below
3/425 s ≈ 0.00706 s (the gap whose horse-length conversion is 0.05), not
0.001 s; every pair below 0.001 s is reported as a dead heat, but so is
every pair with a difference in [0.001 s, 3/425 s).  The archived
`LiveStandings` margin agrees with the `FinalResults` one on finished
pairs. -/
theorem c1_deadHeat_iff_gap_below_3_425 (current previous : Horse)
    (pt ct : ℚ) (hp : previous.finish_time = some pt)
    (hc : current.finish_time = some ct) (hp0 : pt ≠ 0) (hc0 : ct ≠ 0) :
    (FinalResults.getMarginFromFinishTime current previous = Margin.deadHeat
       ↔ ct - pt < 3 / 425) ∧
    LiveStandingsArchived.getMarginFromFinishTime current previous
      = Sum.inl (FinalResults.getMarginFromFinishTime current previous) := by
  have hguard :
      ¬ (¬ jsTruthyNum previous.finish_time ∨ ¬ jsTruthyNum current.finish_time) := by
    rw [hp, hc]
    simp [jsTruthyNum, hp0, hc0]
  constructor
  · rw [FinalResults.getMarginFromFinishTime, if_neg hguard, hp, hc]
    exact finishedMargin_deadHeat_iff (ct - pt)
  · rw [FinalResults.getMarginFromFinishTime,
      LiveStandingsArchived.getMarginFromFinishTime, if_neg hguard, if_neg hguard]

/-- Witness for `c1_deadHeat_iff_gap_below_3_425` at the concrete finished
pair `exWinner`, `exRunnerUp`. -/
theorem c1_deadHeat_iff_gap_below_3_425_witness :
    exWinner.finish_time = some 100 ∧
    exRunnerUp.finish_time = some (100 + 5 / 1000) ∧
    (100 : ℚ) ≠ 0 ∧ (100 + 5 / 1000 : ℚ) ≠ 0 ∧
    ((FinalResults.getMarginFromFinishTime exRunnerUp exWinner = Margin.deadHeat
        ↔ (100 + 5 / 1000 : ℚ) - 100 < 3 / 425) ∧
      LiveStandingsArchived.getMarginFromFinishTime exRunnerUp exWinner
        = Sum.inl (FinalResults.getMarginFromFinishTime exRunnerUp exWinner)) :=
  ⟨rfl, rfl, by norm_num, by norm_num,
    c1_deadHeat_iff_gap_below_3_425 exRunnerUp exWinner 100 (100 + 5 / 1000)
      rfl rfl (by norm_num) (by norm_num)⟩

/-- C1 is false as stated: `exRunnerUp` crosses 0.005 s ≥ 0.001 s after
`exWinner`, yet the margin computation still reports Dead Heat (the
`lengths < 0.05` branch). -/
theorem c1_counterexample :
    FinalResults.getMarginFromFinishTime exRunnerUp exWinner = Margin.deadHeat
      ∧ ¬ ((100 + 5 / 1000 : ℚ) - 100 < 0.001)
      ∧ exRunnerUp.finish_time = some (100 + 5 / 1000)
      ∧ exWinner.finish_time = some 100 := by
  refine ⟨?_, by norm_num, rfl, rfl⟩
  have hguard :
      ¬ (¬ jsTruthyNum exWinner.finish_time ∨ ¬ jsTruthyNum exRunnerUp.finish_time) := by
    norm_num [exWinner, exRunnerUp, jsTruthyNum]
  unfold FinalResults.getMarginFromFinishTime
  rw [if_neg hguard]
  simp only [exWinner, exRunnerUp, Option.getD_some]
  rw [finishedMargin_deadHeat_iff]
  norm_num

/-- Inserting a horse at distance `d` into a list leaves the subsequence of
horses at distance `d` intact, with the new horse in front: the scan of
`orderedInsert` only passes horses strictly farther along. -/
theorem filter_orderedInsert_eq (d : ℚ) (a : Horse) (h : a.distance = d) :
    ∀ l : List Horse,
      (List.orderedInsert (fun x y => y.distance ≤ x.distance) a l).filter
          (fun x => decide (x.distance = d)) =
        a :: l.filter (fun x => decide (x.distance = d)) := by
  intro l
  induction l with
  | nil => simp [List.orderedInsert, h]
  | cons b t ih =>
    rw [List.orderedInsert]
    by_cases hr : b.distance ≤ a.distance
    · rw [if_pos hr]
      simp [List.filter_cons, h]
    · rw [if_neg hr]
      have hbd : ¬ b.distance = d := fun hbd => hr (le_of_eq (hbd.trans h.symm))
      simp [List.filter_cons, hbd, ih]

/-- Inserting a horse at a distance other than `d` leaves the subsequence
of horses at distance `d` unchanged. -/
theorem filter_orderedInsert_ne (d : ℚ) (a : Horse) (h : ¬ a.distance = d) :
    ∀ l : List Horse,
      (List.orderedInsert (fun x y => y.distance ≤ x.distance) a l).filter
          (fun x => decide (x.distance = d)) =
        l.filter (fun x => decide (x.distance = d)) := by
  intro l
  induction l with
  | nil => simp [List.orderedInsert, h]
  | cons b t ih =>
    rw [List.orderedInsert]
    by_cases hr : b.distance ≤ a.distance
    · rw [if_pos hr]
      simp [List.filter_cons, h]
    · rw [if_neg hr]
      simp [List.filter_cons, ih]

/-- Stability of the embedded JavaScript sort: for every distance value,
the horses at that distance appear in the output in their original
order. -/
theorem filter_sortedHorses (d : ℚ) :
    ∀ l : List Horse,
      (RaceTrack.sortedHorses l).filter (fun x => decide (x.distance = d)) =
        l.filter (fun x => decide (x.distance = d)) := by
  intro l
  induction l with
  | nil => rfl
  | cons a t ih =>
    unfold RaceTrack.sortedHorses at ih ⊢
    show (List.orderedInsert _ a (List.insertionSort _ t)).filter _ = _
    by_cases h : a.distance = d
    · rw [filter_orderedInsert_eq d a h, ih]
      simp [List.filter_cons, h]
    · rw [filter_orderedInsert_ne d a h, ih]
      simp [List.filter_cons, h]

/-- C5 (amended): at every tick the `RaceTrack` ordering ranks the
participants by distance covered in descending order, and equal-distance
participants keep their relative order from the incoming `positions` array
(JavaScript's stable sort); gate number is not consulted as a tiebreak. -/
theorem c5_sortedHorses_by_distance_stable (positions : List Horse) :
    List.Perm (RaceTrack.sortedHorses positions) positions ∧
    List.Sorted (fun a b : Horse => b.distance ≤ a.distance)
      (RaceTrack.sortedHorses positions) ∧
    ∀ d : ℚ,
      (RaceTrack.sortedHorses positions).filter
          (fun x => decide (x.distance = d)) =
        positions.filter (fun x => decide (x.distance = d)) :=
  ⟨List.perm_insertionSort _ positions,
   List.sorted_insertionSort _ positions,
   fun d => filter_sortedHorses d positions⟩

/-- Witness for `c5_sortedHorses_by_distance_stable` on a concrete
two-horse frame. -/
theorem c5_sortedHorses_by_distance_stable_witness :
    List.Perm (RaceTrack.sortedHorses [exTieGate2, exTieGate1])
      [exTieGate2, exTieGate1] :=
  (c5_sortedHorses_by_distance_stable [exTieGate2, exTieGate1]).1

/-- C5 is false as stated: with two horses at the same distance listed
gate-2-first, the sorted output keeps gate 2 ahead of gate 1 — the tie is
not broken by gate number ascending. -/
theorem c5_counterexample :
    RaceTrack.sortedHorses [exTieGate2, exTieGate1] = [exTieGate2, exTieGate1]
      ∧ exTieGate2.distance = exTieGate1.distance
      ∧ exTieGate1.gate < exTieGate2.gate
      ∧ ¬ List.Pairwise claimedRankOrder
          (RaceTrack.sortedHorses [exTieGate2, exTieGate1]) := by
  have hsort :
      RaceTrack.sortedHorses [exTieGate2, exTieGate1]
        = [exTieGate2, exTieGate1] := by
    norm_num [RaceTrack.sortedHorses, List.insertionSort, List.orderedInsert,
      exTieGate2, exTieGate1]
  refine ⟨hsort, by norm_num [exTieGate2, exTieGate1],
    by norm_num [exTieGate2, exTieGate1], ?_⟩
  rw [hsort]
  intro hp
  have hco := List.rel_of_pairwise_cons hp (List.mem_cons_self _ _)
  norm_num [claimedRankOrder, exTieGate2, exTieGate1] at hco

/-- Reading a serialized `positions` entry back recovers it exactly. -/
theorem horse_fromJson_toJson (h : Horse) :
    Horse.fromJson (Horse.toJson h) = some h := by
  obtain ⟨name, distance, position, gate, finished, ft, color⟩ := h
  cases ft <;> rfl

/-- Element-wise round trip for a serialized array. -/
theorem optionMapList_map_roundTrip {α β : Type} (f : α → Option β)
    (g : β → α) (hf : ∀ b, f (g b) = some b) :
    ∀ l : List β, optionMapList f (l.map g) = some l := by
  intro l
  induction l with
  | nil => rfl
  | cons x xs ih => simp [optionMapList, hf, ih]

/-- Reading a serialized stored frame back recovers it exactly. -/
theorem storedFrame_fromJson_toJson (f : StoredFrame) :
    StoredFrame.fromJson (StoredFrame.toJson f) = some f := by
  obtain ⟨⟨st, pos, rf⟩, ts⟩ := f
  simp [StoredFrame.toJson, StoredFrame.fromJson, Json.getField,
    asNum, asArr, asBool, List.lookup,
    optionMapList_map_roundTrip Horse.fromJson Horse.toJson horse_fromJson_toJson]

/-- The playback index after `k` interval firings is `min k (len - 1)`:
it advances one frame per firing and saturates at the last frame. -/
theorem replayIndexAfter_eq_min (len : Nat) :
    ∀ k, replayIndexAfter len k = min k (len - 1) := by
  intro k
  induction k with
  | zero => simp [replayIndexAfter]
  | succ k ih =>
    show replayStep len (replayIndexAfter len k) = _
    rw [ih]
    unfold replayStep
    split <;> omega

/-- C2: the saved replay artifact is exactly the serialized race
configuration, the ordered captured frame sequence, a timestamp, and the
race name; loading that artifact back recovers the identical frame
sequence, resets playback to the first stored frame, and playback then
presents the stored frames in their original order (one per fixed 50 ms
interval), reading only the stored list — no simulation is re-run. -/
theorem c2_replay_round_trip (configData : Option Json)
    (frames : List StoredFrame) (nowIso : String) :
    saveReplay configData frames nowIso = Json.obj
        [("config", configData.getD Json.null),
         ("frames", Json.arr (frames.map StoredFrame.toJson)),
         ("timestamp", Json.str nowIso),
         ("raceName", raceNameOf configData)] ∧
    loadReplay (saveReplay configData frames nowIso) = some
        { replayData := saveReplay configData frames nowIso,
          configData := some (configData.getD Json.null),
          raceFrames := frames,
          replayFrameIndex := 0,
          raceState := RState.replay,
          raceData := frames[0]? } ∧
    (∀ k : Nat, k < frames.length → replayDisplayed frames k = frames[k]?) ∧
    playbackIntervalMs = 50 := by
  refine ⟨rfl, ?_, ?_, rfl⟩
  · simp [loadReplay, saveReplay, Json.getField, asArr, List.lookup,
      optionMapList_map_roundTrip StoredFrame.fromJson StoredFrame.toJson
        storedFrame_fromJson_toJson]
  · intro k hk
    unfold replayDisplayed
    rw [replayIndexAfter_eq_min]
    congr 1
    omega

/-- Witness for `c2_replay_round_trip` at a concrete one-frame replay. -/
theorem c2_replay_round_trip_witness :
    loadReplay (saveReplay none [exStoredFrame] "2026-01-01") = some
        { replayData := saveReplay none [exStoredFrame] "2026-01-01",
          configData := some Json.null,
          raceFrames := [exStoredFrame],
          replayFrameIndex := 0,
          raceState := RState.replay,
          raceData := [exStoredFrame][0]? } :=
  (c2_replay_round_trip none [exStoredFrame] "2026-01-01").2.1

/-- C10: during replay playback the frame index advances by one per firing
of the 50 ms interval until it reaches the last stored frame's index and
then stays there; it always lies within `[0, frames.length - 1]`, so the
frame lookup is in bounds and playback halts on the final stored frame
without wrapping. -/
theorem c10_replay_index_in_bounds (frames : List StoredFrame) (k : Nat)
    (h : frames ≠ []) :
    replayIndexAfter frames.length k = min k (frames.length - 1) ∧
    replayIndexAfter frames.length k ≤ frames.length - 1 ∧
    replayIndexAfter frames.length k < frames.length ∧
    (k < frames.length - 1 →
      replayIndexAfter frames.length (k + 1)
        = replayIndexAfter frames.length k + 1) ∧
    (frames.length - 1 ≤ k →
      replayIndexAfter frames.length k = frames.length - 1) ∧
    (frames.length - 1 ≤ k →
      replayIndexAfter frames.length (k + 1)
        = replayIndexAfter frames.length k) ∧
    (replayDisplayed frames k).isSome = true := by
  have hlen : 0 < frames.length := List.length_pos.mpr h
  have h1 := replayIndexAfter_eq_min frames.length k
  have h2 := replayIndexAfter_eq_min frames.length (k + 1)
  have hlt : replayIndexAfter frames.length k < frames.length := by omega
  refine ⟨h1, by omega, hlt, by omega, by omega, by omega, ?_⟩
  unfold replayDisplayed
  rw [List.getElem?_eq_getElem hlt]
  rfl

/-- Witness for `c10_replay_index_in_bounds` on a one-frame buffer after
three firings. -/
theorem c10_replay_index_in_bounds_witness :
    ([exStoredFrame] : List StoredFrame) ≠ [] ∧
    (replayDisplayed [exStoredFrame] 3).isSome = true :=
  ⟨by simp, (c10_replay_index_in_bounds [exStoredFrame] 3 (by simp)).2.2.2.2.2.2⟩

/-- C3: the SetSpeed operation accepts exactly the multipliers 1, 2, 5 and
10 and rejects every other value; the speed-control `<select>` offers only
these four values, and every set-speed request it issues carries one of
them (and is accepted). -/
theorem c3_setSpeed_accepts_exactly (m : ℚ) :
    (setSpeed m = Except.ok () ↔ m ∈ speedOptions) ∧
    speedOptions = [1, 2, 5, 10] ∧
    (∀ v ∈ speedOptions, setSpeed v = Except.ok ()) := by
  refine ⟨⟨?_, ?_⟩, rfl, ?_⟩
  · intro hok
    by_cases h : m = 1 ∨ m = 2 ∨ m = 5 ∨ m = 10
    · simpa [speedOptions] using h
    · rw [setSpeed, if_neg h] at hok
      exact Except.noConfusion hok
  · intro hm
    have h : m = 1 ∨ m = 2 ∨ m = 5 ∨ m = 10 := by simpa [speedOptions] using hm
    rw [setSpeed, if_pos h]
  · intro v hv
    have h : v = 1 ∨ v = 2 ∨ v = 5 ∨ v = 10 := by simpa [speedOptions] using hv
    rw [setSpeed, if_pos h]

/-- Witness for `c3_setSpeed_accepts_exactly`: the offered value 2 is
issued and accepted. -/
theorem c3_setSpeed_accepts_exactly_witness :
    (2 : ℚ) ∈ speedOptions ∧ setSpeed 2 = Except.ok () := by
  have hm : (2 : ℚ) ∈ speedOptions := by norm_num [speedOptions]
  exact ⟨hm, (c3_setSpeed_accepts_exactly 2).2.2 2 hm⟩

/-- C4: when every participant is terminal after the tick's update, the
loop transitions Running → Finished and emits a terminal frame with
`race_finished = true`; every subscriber's delivered stream contains every
terminal frame regardless of which intermediate frames it missed; and the
frontend consumer enters its `'finished'` state exactly upon receiving a
frame whose `race_finished` flag is true. -/
theorem c4_terminal_frame_reaches_consumer
    (upd : List Participant → List Participant) (s : Sim)
    (hrun : s.state = SimState.running)
    (hterm : allTerminal (upd s.participants) = true) :
    ((loopTick upd s).1.state = SimState.finished ∧
      ∃ fr : EFrame, (loopTick upd s).2 = some fr ∧ fr.race_finished = true) ∧
    (∀ (framesE : List EFrame) (keep : EFrame → Bool) (fr : EFrame),
        fr ∈ framesE → fr.race_finished = true → fr ∈ deliver framesE keep) ∧
    (∀ (ui : LiveUi) (m : WsMessage) (now : ℚ),
        ui.raceState ≠ RState.finished →
          ((onmessage ui m now).raceState = RState.finished ↔
            (m.type = "frame" ∧
              ∃ f : Frame, m.data = some f ∧ f.race_finished = true))) := by
  refine ⟨?_, ?_, ?_⟩
  · rw [loopTick, if_pos hrun]
    simp [hterm]
  · intro framesE keep fr hmem hfin
    rw [deliver, List.mem_filter]
    exact ⟨hmem, by simp [hfin]⟩
  · intro ui m now hne
    obtain ⟨mtype, mdata⟩ := m
    by_cases ht : mtype = "frame"
    · subst ht
      cases mdata with
      | none => simp [onmessage, hne]
      | some f =>
        by_cases hrf : f.race_finished
        · simp [onmessage, hrf]
        · simp [onmessage, hrf, hne]
    · simp [onmessage, ht, hne]

/-- Witness for `c4_terminal_frame_reaches_consumer` on a running
single-participant simulation whose runner has finished. -/
theorem c4_terminal_frame_reaches_consumer_witness :
    exSim.state = SimState.running ∧
    allTerminal (id exSim.participants) = true ∧
    ((loopTick id exSim).1.state = SimState.finished ∧
      ∃ fr : EFrame, (loopTick id exSim).2 = some fr
        ∧ fr.race_finished = true) :=
  ⟨rfl, rfl,
    (c4_terminal_frame_reaches_consumer id exSim rfl rfl).1⟩

/-- C6: `Stop` during Running leaves the Running state
(Running → NotStarted-equivalent) and afterwards the loop emits no further
frames (its state and `sim_time` stay put); `Stop` on an already stopped
or finished race changes nothing, and applying it twice equals applying it
once.  The frontend `stopRace` handler likewise leaves the running state
and closes the socket. -/
theorem c6_stop_aborts_idempotent (s : Sim)
    (upd : List Participant → List Participant) (st : SimState)
    (ui : LiveUi) :
    stop SimState.running = SimState.notStarted ∧
    (applyStop s).state ≠ SimState.running ∧
    loopTick upd (applyStop s) = (applyStop s, none) ∧
    (st ≠ SimState.running → stop st = st) ∧
    stop (stop st) = stop st ∧
    (stopRace ui).raceState = RState.idle ∧
    (stopRace ui).wsOpen = false := by
  have hns : (applyStop s).state ≠ SimState.running := by
    cases hs : s.state <;> simp [applyStop, stop, hs]
  refine ⟨rfl, hns, ?_, ?_, ?_, rfl, rfl⟩
  · rw [loopTick, if_neg hns]
  · intro hne
    cases st with
    | notStarted => rfl
    | running => exact absurd rfl hne
    | finished => rfl
  · cases st <;> rfl

/-- Witness for `c6_stop_aborts_idempotent` at a concrete running
simulation, discharging the idempotence hypothesis at `finished`. -/
theorem c6_stop_aborts_idempotent_witness :
    SimState.finished ≠ SimState.running ∧
    stop SimState.finished = SimState.finished :=
  ⟨by simp,
    (c6_stop_aborts_idempotent exSim id SimState.finished exUi).2.2.2.1
      (by simp)⟩

/-- C7: for two participants whose finish times differ by less than the
dead-heat epsilon, the weighted tiebreak score
`0.6 × normalized_velocity + 0.2 × normalized_acceleration +
0.2 × normalized_power` at the moment of crossing is computed, and the
participant with the higher score is placed ahead. -/
theorem c7_weighted_tiebreak (a b : Crossing)
    (h : |a.finish_time - b.finish_time| < deadHeatEpsilon) :
    tiebreakScore a = 0.6 * a.normalized_velocity
        + 0.2 * a.normalized_acceleration + 0.2 * a.normalized_power ∧
    (tiebreakScore b < tiebreakScore a →
      resolvePhotoFinish a b = PairOrder.firstAhead) ∧
    (tiebreakScore a < tiebreakScore b →
      resolvePhotoFinish a b = PairOrder.secondAhead) := by
  refine ⟨rfl, ?_, ?_⟩
  · intro hs
    rw [resolvePhotoFinish, if_pos h, if_pos hs]
  · intro hs
    rw [resolvePhotoFinish, if_pos h, if_neg (lt_asymm hs), if_pos hs]

/-- Witness for `c7_weighted_tiebreak`: crossings 0.0004 s apart with
scores 0.74 and 0.68 resolve in favour of the higher score. -/
theorem c7_weighted_tiebreak_witness :
    |exCrossA.finish_time - exCrossB.finish_time| < deadHeatEpsilon ∧
    tiebreakScore exCrossB < tiebreakScore exCrossA ∧
    resolvePhotoFinish exCrossA exCrossB = PairOrder.firstAhead := by
  have heps : |exCrossA.finish_time - exCrossB.finish_time| < deadHeatEpsilon := by
    norm_num [exCrossA, exCrossB, deadHeatEpsilon, abs_lt]
  have hsc : tiebreakScore exCrossB < tiebreakScore exCrossA := by
    norm_num [tiebreakScore, exCrossA, exCrossB]
  exact ⟨heps, hsc, ((c7_weighted_tiebreak exCrossA exCrossB heps).2.1) hsc⟩

/-- C9: the frame appended to the replay buffer preserves every field of
the received frame unchanged and adds exactly the `timestamp` field set to
the wall-clock time of receipt; projecting the timestamp away recovers the
emitted frame. -/
theorem c9_capture_adds_only_timestamp (f : Frame) (now : ℚ) (s : LiveUi)
    (m : WsMessage) (hm : m.type = "frame") (hd : m.data = some f) :
    (captureFrame f now).toFrame = f ∧
    (captureFrame f now).sim_time = f.sim_time ∧
    (captureFrame f now).positions = f.positions ∧
    (captureFrame f now).race_finished = f.race_finished ∧
    (captureFrame f now).timestamp = now ∧
    (onmessage s m now).raceFrames = s.raceFrames ++ [captureFrame f now] := by
  refine ⟨rfl, rfl, rfl, rfl, rfl, ?_⟩
  obtain ⟨mtype, mdata⟩ := m
  simp only at hm hd
  subst hm
  subst hd
  by_cases hrf : f.race_finished <;> simp [onmessage, hrf]

/-- Witness for `c9_capture_adds_only_timestamp` on a concrete message. -/
theorem c9_capture_adds_only_timestamp_witness :
    exMsg.type = "frame" ∧ exMsg.data = some exFrame ∧
    (onmessage exUi exMsg 777).raceFrames
      = exUi.raceFrames ++ [captureFrame exFrame 777] :=
  ⟨rfl, rfl,
    (c9_capture_adds_only_timestamp exFrame 777 exUi exMsg rfl rfl).2.2.2.2.2⟩

/-- A stamina tick never goes below zero. -/
theorem staminaTick_nonneg (mult v s : ℚ) : 0 ≤ staminaTick mult v s :=
  le_max_left 0 _

/-- With a nonnegative depletion multiplier, a stamina tick never
increases nonnegative stamina. -/
theorem staminaTick_le (mult v s : ℚ) (hm : 0 ≤ mult) (hs : 0 ≤ s) :
    staminaTick mult v s ≤ s := by
  unfold staminaTick
  have hd : 0 ≤ mult * v ^ 2 := mul_nonneg hm (sq_nonneg v)
  exact max_le hs (by linarith)

/-- With a nonnegative depletion multiplier, zero stamina stays zero. -/
theorem staminaTick_zero (mult v : ℚ) (hm : 0 ≤ mult) :
    staminaTick mult v 0 = 0 := by
  unfold staminaTick
  have hd : 0 ≤ mult * v ^ 2 := mul_nonneg hm (sq_nonneg v)
  exact max_eq_left (by linarith)

/-- Folding ticks with nonnegative multipliers keeps stamina within
`[0, maxS]` whenever it starts there. -/
theorem staminaAfter_bounds (maxS : ℚ) :
    ∀ (ticks : List (ℚ × ℚ)) (s0 : ℚ), 0 ≤ s0 → s0 ≤ maxS →
      (∀ mv ∈ ticks, 0 ≤ mv.1) →
      0 ≤ staminaAfter s0 ticks ∧ staminaAfter s0 ticks ≤ maxS := by
  intro ticks
  induction ticks with
  | nil => exact fun s0 h0 h1 _ => ⟨h0, h1⟩
  | cons mv t ih =>
    intro s0 h0 h1 hm
    have hmv : 0 ≤ mv.1 := hm mv (List.mem_cons_self _ _)
    have hstep : staminaAfter s0 (mv :: t)
        = staminaAfter (staminaTick mv.1 mv.2 s0) t := rfl
    rw [hstep]
    exact ih _ (staminaTick_nonneg _ _ _)
      (le_trans (staminaTick_le _ _ _ hmv h0) h1)
      (fun x hx => hm x (List.mem_cons_of_mem _ hx))

/-- Folding ticks with nonnegative multipliers absorbs zero stamina. -/
theorem staminaAfter_zero :
    ∀ ticks : List (ℚ × ℚ), (∀ mv ∈ ticks, 0 ≤ mv.1) →
      staminaAfter 0 ticks = 0 := by
  intro ticks
  induction ticks with
  | nil => exact fun _ => rfl
  | cons mv t ih =>
    intro hm
    have hmv : 0 ≤ mv.1 := hm mv (List.mem_cons_self _ _)
    have hstep : staminaAfter 0 (mv :: t)
        = staminaAfter (staminaTick mv.1 mv.2 0) t := rfl
    rw [hstep, staminaTick_zero _ _ hmv]
    exact ih fun x hx => hm x (List.mem_cons_of_mem _ hx)

/-- Splitting a stamina fold over a concatenation of tick lists. -/
theorem staminaAfter_append (s0 : ℚ) (l1 l2 : List (ℚ × ℚ)) :
    staminaAfter s0 (l1 ++ l2) = staminaAfter (staminaAfter s0 l1) l2 :=
  List.foldl_append _ _ _ _

/-- C8: with nonnegative per-tick depletion multipliers, stamina stays
within `[0, max]` after every tick of the race, and once it reaches zero
at some tick it is still zero at every later tick — the stamina crash is
never reversed. -/
theorem c8_stamina_bounds_and_crash (s0 maxS : ℚ)
    (ticks : List (ℚ × ℚ)) (h0 : 0 ≤ s0) (h1 : s0 ≤ maxS)
    (hm : ∀ mv ∈ ticks, 0 ≤ mv.1) :
    (∀ n : Nat, 0 ≤ staminaAfter s0 (ticks.take n) ∧
      staminaAfter s0 (ticks.take n) ≤ maxS) ∧
    (∀ n k : Nat, n ≤ k → staminaAfter s0 (ticks.take n) = 0 →
      staminaAfter s0 (ticks.take k) = 0) := by
  have hmem : ∀ n : Nat, ∀ mv ∈ ticks.take n, (0 : ℚ) ≤ mv.1 :=
    fun n mv hmv => hm mv (List.mem_of_mem_take hmv)
  constructor
  · intro n
    exact staminaAfter_bounds maxS (ticks.take n) s0 h0 h1 (hmem n)
  · intro n k hnk hz
    have hsplit : ticks.take k = ticks.take n ++ (ticks.take k).drop n := by
      conv_lhs => rw [← List.take_append_drop n (ticks.take k)]
      rw [List.take_take, min_eq_left hnk]
    rw [hsplit, staminaAfter_append, hz]
    exact staminaAfter_zero _
      (fun mv hmv => hmem k mv (List.mem_of_mem_drop hmv))

/-- Witness for `c8_stamina_bounds_and_crash` with stamina 50 of max 100
over three concrete ticks. -/
theorem c8_stamina_bounds_and_crash_witness :
    (0 : ℚ) ≤ 50 ∧ (50 : ℚ) ≤ 100 ∧ (∀ mv ∈ exTicks, (0 : ℚ) ≤ mv.1) ∧
    (∀ n : Nat, 0 ≤ staminaAfter 50 (exTicks.take n) ∧
      staminaAfter 50 (exTicks.take n) ≤ 100) := by
  have hm : ∀ mv ∈ exTicks, (0 : ℚ) ≤ mv.1 := by
    intro mv hmv
    simp only [exTicks, List.mem_cons, List.not_mem_nil, or_false] at hmv
    rcases hmv with h | h | h <;> rw [h] <;> norm_num
  exact ⟨by norm_num, by norm_num, hm,
    (c8_stamina_bounds_and_crash 50 100 exTicks (by norm_num) (by norm_num)
      hm).1⟩

end UmaRacing
